import Mathlib

/-!
Verification of the baseline compiler (Go): a parser-combinator library
(`Source`, `Parser`, the combinator kernel), the expression/statement
grammar, and the ARM assembly emitter over the AST.

Source text is modelled as `List Char` with a byte/char index (the inputs
are ASCII, where Go's byte indexing and char indexing coincide).  Parsers
are pure functions `Source → Option (value × Source)`; `none` models the
Go `nil` parse result.  Go `panic` in the emitter is modelled as
`Except.error`.  Go's unbounded recursion (the lazily rebuilt `expression`
and `statement` parsers, and the `Many` loop) is modelled with an explicit
fuel argument that is recomputed from the remaining input at each entry
point, exactly large enough that the cutoff is unreachable whenever the Go
code terminates; a fuel cutoff (`none`) models a Go computation that never
returns.
-/

namespace Baseline

/-- Go `Source` (part_000): an immutable cursor, a string plus an index. -/
structure Source where
  str : List Char
  index : Nat
deriving DecidableEq, Repr

/-- The regular-expression patterns the grammar actually uses (parser.go),
translated from Go regexp syntax: `classPlus cs` is `[cs]+`; `ident` is
`[a-zA-Z_][a-zA-Z0-9_]*`; `lit s` is the literal `s` (escaped in the Go
pattern where needed); `keyword s` is `s\b`; `lineComment` is `//.*`;
`blockComment` is `(?s)/\*.*?\*/`. -/
inductive Pat where
  | classPlus (cs : List Char)
  | ident
  | lit (s : List Char)
  | keyword (s : List Char)
  | lineComment
  | blockComment
deriving DecidableEq, Repr

/-- Word characters `[0-9A-Za-z_]`, as used by Go regexp `\b`. -/
def isWordChar (c : Char) : Bool := c.isAlphanum || c == '_'

/-- Position of the earliest occurrence of `*/` in a list, if any (used to
model the non-greedy `(?s)/\*.*?\*/` block-comment pattern). -/
def findClose : List Char → Option Nat
  | [] => none
  | '*' :: '/' :: _ => some 0
  | _ :: rest => (findClose rest).map (· + 1)

/-- The leftmost match of a pattern anchored at the start of `rem`,
returning the matched prefix.  Follows Go `regexp.FindStringIndex` on the
anchored pattern for each shape of `Pat`. -/
def matchHere : Pat → List Char → Option (List Char)
  | .classPlus cs, rem =>
    let m := rem.takeWhile (fun c => cs.contains c)
    if m.isEmpty then none else some m
  | .ident, rem =>
    match rem with
    | c :: rest =>
      if c.isAlpha || c == '_' then some (c :: rest.takeWhile isWordChar) else none
    | [] => none
  | .lit l, rem => if l.isPrefixOf rem then some l else none
  | .keyword l, rem =>
    if l.isPrefixOf rem then
      match rem.drop l.length with
      | [] => some l
      | c :: _ => if isWordChar c then none else some l
    else none
  | .lineComment, rem =>
    match rem with
    | '/' :: '/' :: rest => some ('/' :: '/' :: rest.takeWhile (fun c => c != '\n'))
    | _ => none
  | .blockComment, rem =>
    match rem with
    | '/' :: '*' :: rest =>
      match findClose rest with
      | some k => some ('/' :: '*' :: rest.take (k + 2))
      | none => none
    | _ => none

/-- Go `Source.Match`: fails at end of input, otherwise matches the pattern
anchored at the current index and advances by the match length.  (The Go
code strips a leading `^` and re-anchors; none of the grammar's patterns
carries one.) -/
def Source.Match (s : Source) (pat : Pat) : Option (List Char × Source) :=
  if s.index ≥ s.str.length then none
  else
    match matchHere pat (s.str.drop s.index) with
    | none => none
    | some m => some (m, ⟨s.str, s.index + m.length⟩)

/-- Go `Parser[T]`: a pure function from cursor to optional value/cursor. -/
abbrev Parser (T : Type) : Type := Source → Option (T × Source)

/-- Go `Regexp`. -/
def Regexp (pat : Pat) : Parser (List Char) := fun source => source.Match pat

/-- Go `Constant`: always succeeds without advancing. -/
def Constant {T : Type} (value : T) : Parser T := fun source => some (value, source)

/-- A parser that always fails.  Used only to model the one unreachable
spot where the Go code would panic inside a parser (`__assert` with an
empty argument list indexes `args[0]` out of range). -/
def FailP {T : Type} : Parser T := fun _ => none

/-- Go variadic `Or`: try the parsers in order, first success wins. -/
def OrL {T : Type} : List (Parser T) → Parser T
  | [] => fun _ => none
  | p :: ps => fun source =>
    match p source with
    | some result => some result
    | none => OrL ps source

/-- The loop body of Go `Many`, with explicit fuel.  Each iteration runs
the parser; on failure the collected values and the current cursor are
returned.  Fuel exhaustion (`none`) models the Go `for` loop failing to
terminate (which happens exactly when the parser keeps succeeding without
ever failing, e.g. a parser that succeeds without advancing). -/
def ManyAux {T : Type} (p : Parser T) : Nat → Source → Option (List T × Source)
  | 0, _ => none
  | fuel + 1, source =>
    match p source with
    | none => some ([], source)
    | some (v, source1) =>
      match ManyAux p fuel source1 with
      | none => none
      | some (vs, source2) => some (v :: vs, source2)

/-- Go `Many`: zero or more repetitions.  The fuel `|str| + 1 - index` is
sufficient for every parser that strictly advances on success, making the
cutoff unreachable in exactly the cases where the Go loop terminates. -/
def Many {T : Type} (parser : Parser T) : Parser (List T) := fun source =>
  ManyAux parser (source.str.length + 1 - source.index) source

/-- Go `Bind`: run `parser`; on success run `callback value` at the
resulting cursor. -/
def Bind {T U : Type} (parser : Parser T) (callback : T → Parser U) : Parser U :=
  fun source =>
    match parser source with
    | none => none
    | some (value, source1) => callback value source1

/-- Go `And`: sequence, discarding the first value (defined via `Bind`,
as in the source). -/
def And {T U : Type} (parser1 : Parser T) (parser2 : Parser U) : Parser U :=
  Bind parser1 (fun _ => parser2)

/-- Go `Map` (defined via `Bind` and `Constant`, as in the source). -/
def Map {T U : Type} (parser : Parser T) (callback : T → U) : Parser U :=
  Bind parser (fun value => Constant (callback value))

/-- Go `Maybe`: zero or one; on failure returns `none` (Go `nil` pointer)
without advancing. -/
def Maybe {T : Type} (parser : Parser T) : Parser (Option T) := fun source =>
  match parser source with
  | none => some (none, source)
  | some (value, source1) => some (some value, source1)

/-- Decimal digits of `n`, most significant first, as characters; the fuel
argument makes the recursion structural (with fuel `n + 1` the cutoff is
unreachable).  Matches Go `fmt` `%d` for non-negative values. -/
def decReprAux : Nat → Nat → List Char
  | 0, _ => []
  | fuel + 1, n =>
    if n < 10 then [Nat.digitChar n]
    else decReprAux fuel (n / 10) ++ [Nat.digitChar (n % 10)]

/-- Decimal representation of a natural number, matching Go `%d`. -/
def decRepr (n : Nat) : List Char := decReprAux (n + 1) n

/-- Decimal rendering of a `Nat` as a string. -/
def natStr (n : Nat) : String := String.mk (decRepr n)

/-- Decimal rendering of an `Int` as a string, matching Go `%d`. -/
def intStr (i : Int) : String :=
  if i < 0 then "-" ++ natStr i.natAbs else natStr i.toNat

/-- Go `Parser.ParseStringToCompletion`: run the parser from index 0; fail
(Go: panic) if there is no result or the resulting cursor is not at the
end of its string.  Note the Go code compares the result cursor's index
with the length of the result cursor's *own* string and slices that string
for the diagnostic. -/
def ParseStringToCompletion {T : Type} (p : Parser T) (str : List Char) : Except String T :=
  match p ⟨str, 0⟩ with
  | none => .error "Parse error: could not parse anything at all"
  | some (value, source1) =>
    if source1.index ≠ source1.str.length then
      .error ("Parse error at index " ++ natStr source1.index ++
        ", remaining: " ++ String.mk (source1.str.drop source1.index))
    else .ok value

/-! ## The AST (ast.go)

Node and field names follow the Go source; `not`, `ret`, `ifNode`,
`whileNode` and `varNode` stand in for Go names that Lean reserves. -/

inductive AST where
  | number (value : Int)
  | id (value : String)
  | not (term : AST)
  | equal (left right : AST)
  | notEqual (left right : AST)
  | add (left right : AST)
  | subtract (left right : AST)
  | multiply (left right : AST)
  | divide (left right : AST)
  | call (callee : String) (args : List AST)
  | ret (term : AST)
  | block (statements : List AST)
  | ifNode (conditional consequence alternative : AST)
  | whileNode (conditional body : AST)
  | assign (name : String) (value : AST)
  | varNode (name : String) (value : AST)
  | function (name : String) (parameters : List String) (body : AST)
  | main (statements : List AST)
  | assert (condition : AST)

/-! ## The grammar (parser.go) -/

/-- Go: `whitespace = Regexp([ \n\r\t]+)`. -/
def whitespace : Parser (List Char) := Regexp (Pat.classPlus [' ', '\n', '\r', '\t'])

/-- Go: `comments = Or(Regexp(//.*), Regexp((?s)/\*.*?\*/))`. -/
def comments : Parser (List Char) := OrL [Regexp Pat.lineComment, Regexp Pat.blockComment]

/-- Go: `ignored = Many(Or(whitespace, comments))`. -/
def ignored : Parser (List (List Char)) := Many (OrL [whitespace, comments])

/-- Go `token`: a pattern followed by trailing ignorables; the value is the
matched text. -/
def token (pat : Pat) : Parser (List Char) :=
  Bind (Regexp pat) (fun value => And ignored (Constant value))

def FUNCTION : Parser (List Char) := token (Pat.keyword "function".data)
def IF : Parser (List Char) := token (Pat.keyword "if".data)
def WHILE : Parser (List Char) := token (Pat.keyword "while".data)
def ELSE : Parser (List Char) := token (Pat.keyword "else".data)
def RETURN : Parser (List Char) := token (Pat.keyword "return".data)
def VAR : Parser (List Char) := token (Pat.keyword "var".data)

def COMMA : Parser (List Char) := token (Pat.lit ",".data)
def SEMICOLON : Parser (List Char) := token (Pat.lit ";".data)
def LEFT_PAREN : Parser (List Char) := token (Pat.lit "(".data)
def RIGHT_PAREN : Parser (List Char) := token (Pat.lit ")".data)
def LEFT_BRACE : Parser (List Char) := token (Pat.lit "\x7b".data)
def RIGHT_BRACE : Parser (List Char) := token (Pat.lit "\x7d".data)

/-- Go `strconv.Atoi` on a digit string: the decimal value, clamped to the
maximum 64-bit `int` on overflow (`Atoi` returns `MaxInt64` together with
the ignored range error). -/
def atoi (digits : List Char) : Int :=
  let n : Nat := digits.foldl (fun acc c => acc * 10 + (c.toNat - 48)) 0
  if n ≤ 9223372036854775807 then (n : Int) else 9223372036854775807

def NUMBER : Parser AST :=
  Map (token (Pat.classPlus ['0', '1', '2', '3', '4', '5', '6', '7', '8', '9']))
    (fun digits => AST.number (atoi digits))

def ID : Parser (List Char) := token Pat.ident

def idParser : Parser AST := Map ID (fun x => AST.id (String.mk x))

/-- Go `NOT` maps `!` to the placeholder value `Not{}` (a `Not` node whose
term is the zero value); only the presence of the value is ever used, by
`Maybe` in the unary rule. The placeholder's payload is modelled as
`number 0`. -/
def NOT : Parser AST := Map (token (Pat.lit "!".data)) (fun _ => AST.not (AST.number 0))

def EQUAL : Parser (AST → AST → AST) :=
  Map (token (Pat.lit "==".data)) (fun _ => fun l r => AST.equal l r)
def NOT_EQUAL : Parser (AST → AST → AST) :=
  Map (token (Pat.lit "!=".data)) (fun _ => fun l r => AST.notEqual l r)
def PLUS : Parser (AST → AST → AST) :=
  Map (token (Pat.lit "+".data)) (fun _ => fun l r => AST.add l r)
def MINUS : Parser (AST → AST → AST) :=
  Map (token (Pat.lit "-".data)) (fun _ => fun l r => AST.subtract l r)
def STAR : Parser (AST → AST → AST) :=
  Map (token (Pat.lit "*".data)) (fun _ => fun l r => AST.multiply l r)
def SLASH : Parser (AST → AST → AST) :=
  Map (token (Pat.lit "/".data)) (fun _ => fun l r => AST.divide l r)
def ASSIGN_OP : Parser (String → AST → AST) :=
  Map (token (Pat.lit "=".data)) (fun _ => fun name value => AST.assign name value)

/-- Go `infix`: parse one term, then zero or more `(op, term)` pairs, each
mapped to the function `current ↦ op(current, right)`, then fold left. -/
def infixRule (operatOr : Parser (AST → AST → AST)) (termParser : Parser AST) : Parser AST :=
  Bind termParser (fun left =>
    Bind (Many
      (Bind operatOr (fun op =>
        Bind termParser (fun right =>
          Constant (fun current => op current right)))))
      (fun ops => Constant (ops.foldl (fun result op => op result) left)))

/-- Rule `args <- (expression (COMMA expression)*)?` from `getComparisonParser`,
parameterised by the expression parser. -/
def argsRule (expr : Parser AST) : Parser (List AST) :=
  OrL [
    Bind expr (fun arg =>
      Bind (Many (And COMMA expr)) (fun args =>
        Constant (arg :: args))),
    Constant []]

/-- Rule `call <- ID LEFT_PAREN args RIGHT_PAREN`; a callee named `__assert`
yields `Assert(args[0])` instead of `Call`.  In Go, `__assert` with an
empty argument list panics (index out of range); that unreachable-in-spec
spot is modelled as a failing parser. -/
def callRule (expr : Parser AST) : Parser AST :=
  Bind ID (fun callee =>
    And LEFT_PAREN (Bind (argsRule expr) (fun args =>
      if String.mk callee = "__assert" then
        match args with
        | arg0 :: _ => And RIGHT_PAREN (Constant (AST.assert arg0))
        | [] => FailP
      else
        And RIGHT_PAREN (Constant (AST.call (String.mk callee) args)))))

/-- Rule `atom <- call / ID / NUMBER / LEFT_PAREN expression RIGHT_PAREN`. -/
def atomRule (expr : Parser AST) : Parser AST :=
  OrL [callRule expr, idParser, NUMBER,
    Bind (And LEFT_PAREN expr) (fun e => And RIGHT_PAREN (Constant e))]

/-- Rule `unary <- NOT? atom`. -/
def unaryRule (expr : Parser AST) : Parser AST :=
  Bind (Maybe NOT) (fun notV =>
    Map (atomRule expr) (fun term =>
      match notV with
      | some _ => AST.not term
      | none => term))

/-- Rule `product <- unary ((STAR / SLASH) unary)*`. -/
def productRule (expr : Parser AST) : Parser AST :=
  infixRule (OrL [STAR, SLASH]) (unaryRule expr)

/-- Rule `sum <- product ((PLUS / MINUS) product)*`. -/
def sumRule (expr : Parser AST) : Parser AST :=
  infixRule (OrL [PLUS, MINUS]) (productRule expr)

/-- Go `getComparisonParser`: the precedence ladder
`comparison <- sum ((EQUAL / NOT_EQUAL) sum)*`, parameterised by the
parser used at recursive `expression` positions. -/
def getComparisonParser (expr : Parser AST) : Parser AST :=
  infixRule (OrL [EQUAL, NOT_EQUAL]) (sumRule expr)

/-- The Go `expression` indirection (rebuilt via `getComparisonParser()` on
every invocation) with explicit fuel for the recursion through
parenthesised expressions and call arguments; every such re-entry consumes
at least one character first, so fuel `|str| + 1 - index` (see
`expression`) makes the cutoff unreachable. -/
def expressionF : Nat → Parser AST
  | 0 => fun _ => none
  | n + 1 => getComparisonParser (expressionF n)

/-- Go `expression`. -/
def expression : Parser AST := fun source =>
  expressionF (source.str.length + 1 - source.index) source

/-- Rule `returnStatement <- RETURN expression SEMICOLON`. -/
def returnStatementRule : Parser AST :=
  Bind (And RETURN expression) (fun term =>
    And SEMICOLON (Constant (AST.ret term)))

/-- Rule `expressionStatement <- expression SEMICOLON`. -/
def expressionStatementRule : Parser AST :=
  Bind expression (fun term => And SEMICOLON (Constant term))

/-- Rule `ifStatement <- IF LEFT_PAREN expression RIGHT_PAREN statement ELSE statement`. -/
def ifStatementRule (stmt : Parser AST) : Parser AST :=
  Bind (And (And IF LEFT_PAREN) expression) (fun conditional =>
    Bind (And RIGHT_PAREN stmt) (fun consequence =>
      Bind (And ELSE stmt) (fun alternative =>
        Constant (AST.ifNode conditional consequence alternative))))

/-- Rule `whileStatement <- WHILE LEFT_PAREN expression RIGHT_PAREN statement`. -/
def whileStatementRule (stmt : Parser AST) : Parser AST :=
  Bind (And (And WHILE LEFT_PAREN) expression) (fun conditional =>
    Bind (And RIGHT_PAREN stmt) (fun body =>
      Constant (AST.whileNode conditional body)))

/-- Rule `varStatement <- VAR ID ASSIGN expression SEMICOLON`. -/
def varStatementRule : Parser AST :=
  Bind (And VAR ID) (fun name =>
    Bind (And ASSIGN_OP expression) (fun value =>
      And SEMICOLON (Constant (AST.varNode (String.mk name) value))))

/-- Rule `assignmentStatement <- ID ASSIGN expression SEMICOLON`. -/
def assignmentStatementRule : Parser AST :=
  Bind ID (fun name =>
    Bind (And ASSIGN_OP expression) (fun value =>
      And SEMICOLON (Constant (AST.assign (String.mk name) value))))

/-- Rule `blockStatement <- LEFT_BRACE statement* RIGHT_BRACE`. -/
def blockStatementRule (stmt : Parser AST) : Parser AST :=
  Bind (And LEFT_BRACE (Many stmt)) (fun statements =>
    And RIGHT_BRACE (Constant (AST.block statements)))

/-- Rule `parameters <- (ID (COMMA ID)*)?`. -/
def parametersRule : Parser (List String) :=
  OrL [
    Bind ID (fun param =>
      Bind (Many (And COMMA ID)) (fun params =>
        Constant (String.mk param :: params.map String.mk))),
    Constant []]

/-- Rule `functionStatement <- FUNCTION ID LEFT_PAREN parameters RIGHT_PAREN
blockStatement`; a function named `__main` whose body parsed as a `Block`
yields `Main(statements)` (discarding the parameter list). -/
def functionStatementRule (stmt : Parser AST) : Parser AST :=
  Bind (And FUNCTION ID) (fun name =>
    Bind (And LEFT_PAREN parametersRule) (fun parameters =>
      Bind (And RIGHT_PAREN (blockStatementRule stmt)) (fun blk =>
        if String.mk name = "__main" then
          match blk with
          | AST.block statements => Constant (AST.main statements)
          | _ => Constant (AST.function (String.mk name) parameters blk)
        else
          Constant (AST.function (String.mk name) parameters blk))))

/-- Go `getStatementParser`: the ordered statement alternatives. -/
def getStatementParser (stmt : Parser AST) : Parser AST :=
  OrL [
    returnStatementRule,
    functionStatementRule stmt,
    ifStatementRule stmt,
    whileStatementRule stmt,
    varStatementRule,
    assignmentStatementRule,
    blockStatementRule stmt,
    expressionStatementRule]

/-- The Go `statement` indirection with explicit fuel (recursive statement
positions are all re-entered only after consuming at least one
character). -/
def statementF : Nat → Parser AST
  | 0 => fun _ => none
  | n + 1 => getStatementParser (statementF n)

/-- Go `statement`. -/
def statement : Parser AST := fun source =>
  statementF (source.str.length + 1 - source.index) source

/-- Go `parser`: leading ignorables, then `many(statement)`, wrapped in a
`Block`. -/
def parserTop : Parser AST :=
  Map (And ignored (Many statement)) (fun statements => AST.block statements)

/-! ## Environment and code generator (ast.go)

The Go `Environment` holds a mutable `map[string]int` of local offsets and
a signed `nextLocalOffset`.  The map is modelled as an association list
where an insert prepends the new entry and `List.lookup` returns the most
recent one, which is observationally the Go map's lookup-after-overwrite
behaviour.  `emit` (Go: `fmt.Println` to stdout) is modelled by returning
the list of emitted lines; Go `panic` becomes `Except.error`; the
process-global label counter is threaded explicitly. -/

structure Environment where
  locals : List (String × Int)
  nextLocalOffset : Int
deriving DecidableEq, Repr

/-- Go `NewEnvironment`. -/
def NewEnvironment : Environment := ⟨[], 0⟩

/-- Go `Label.String()`: `.L<n>`. -/
def labelStr (n : Nat) : String := ".L" ++ natStr n

/-- Go: `fmt.Sprintf("  ldr r0, =%d", v)`. -/
def ldrConstLine (v : Int) : String := "  ldr r0, =" ++ intStr v

/-- Go: `fmt.Sprintf("  ldr r0, [fp, #%d]", offset)`. -/
def ldrFpLine (offset : Int) : String := "  ldr r0, [fp, #" ++ intStr offset ++ "]"

/-- Go: `fmt.Sprintf("  str r0, [fp, #%d]", offset)`. -/
def strFpLine (offset : Int) : String := "  str r0, [fp, #" ++ intStr offset ++ "]"

/-- Go: `fmt.Sprintf("  str r0, [sp, #%d]", 4*i)`. -/
def strSpLine (offset : Int) : String := "  str r0, [sp, #" ++ intStr offset ++ "]"

/-- Go `Function.setUpEnvironment` loop body: insert `params[i] ↦ 4*i-16`
for each parameter in order (`i` is the running index). -/
def setUpLocals : Nat → List String → List (String × Int) → List (String × Int)
  | _, [], m => m
  | i, param :: params, m => setUpLocals (i + 1) params ((param, 4 * (i : Int) - 16) :: m)

/-- Go `Function.setUpEnvironment`: a fresh environment with
`params[i] ↦ 4*i - 16` and `nextLocalOffset = -20`. -/
def setUpEnvironment (parameters : List String) : Environment :=
  ⟨setUpLocals 0 parameters NewEnvironment.locals, -20⟩

/-- Go `Function.emitPrologue`. -/
def prologueLines : List String :=
  ["  push \x7bfp, lr\x7d", "  mov fp, sp", "  push \x7br0, r1, r2, r3\x7d"]

/-- Go `Function.emitEpilogue`. -/
def epilogueLines : List String :=
  ["  mov sp, fp", "  mov r0, #0", "  pop \x7bfp, pc\x7d"]

mutual

/-- Go `Emit` for each AST variant (ast.go), returning the emitted lines,
the updated environment (Go mutates it through a pointer) and the updated
label counter, or the Go panic message. -/
def Emit : AST → Environment → Nat → Except String (List String × Environment × Nat)
  | .number value, env, labels => .ok ([ldrConstLine value], env, labels)
  | .id value, env, labels =>
    match List.lookup value env.locals with
    | some offset => .ok ([ldrFpLine offset], env, labels)
    | none => .error ("Undefined variable: " ++ value)
  | .not term, env, labels =>
    match Emit term env labels with
    | .error e => .error e
    | .ok (ls, env1, labels1) =>
      .ok (ls ++ ["  cmp r0, #0", "  moveq r0, #1", "  movne r0, #0"], env1, labels1)
  | .equal left right, env, labels =>
    match Emit left env labels with
    | .error e => .error e
    | .ok (ll, env1, labels1) =>
      match Emit right env1 labels1 with
      | .error e => .error e
      | .ok (lr, env2, labels2) =>
        .ok (ll ++ ["  push \x7br0, ip\x7d"] ++ lr ++
          ["  pop \x7br1, ip\x7d", "  cmp r0, r1", "  moveq r0, #1", "  movne r0, #0"],
          env2, labels2)
  | .notEqual left right, env, labels =>
    match Emit left env labels with
    | .error e => .error e
    | .ok (ll, env1, labels1) =>
      match Emit right env1 labels1 with
      | .error e => .error e
      | .ok (lr, env2, labels2) =>
        .ok (ll ++ ["  push \x7br0, ip\x7d"] ++ lr ++
          ["  pop \x7br1, ip\x7d", "  cmp r0, r1", "  movne r0, #1", "  moveq r0, #0"],
          env2, labels2)
  | .add left right, env, labels =>
    match Emit left env labels with
    | .error e => .error e
    | .ok (ll, env1, labels1) =>
      match Emit right env1 labels1 with
      | .error e => .error e
      | .ok (lr, env2, labels2) =>
        .ok (ll ++ ["  push \x7br0, ip\x7d"] ++ lr ++
          ["  pop \x7br1, ip\x7d", "  add r0, r1, r0"], env2, labels2)
  | .subtract left right, env, labels =>
    match Emit left env labels with
    | .error e => .error e
    | .ok (ll, env1, labels1) =>
      match Emit right env1 labels1 with
      | .error e => .error e
      | .ok (lr, env2, labels2) =>
        .ok (ll ++ ["  push \x7br0, ip\x7d"] ++ lr ++
          ["  pop \x7br1, ip\x7d", "  sub r0, r1, r0"], env2, labels2)
  | .multiply left right, env, labels =>
    match Emit left env labels with
    | .error e => .error e
    | .ok (ll, env1, labels1) =>
      match Emit right env1 labels1 with
      | .error e => .error e
      | .ok (lr, env2, labels2) =>
        .ok (ll ++ ["  push \x7br0, ip\x7d"] ++ lr ++
          ["  pop \x7br1, ip\x7d", "  mul r0, r1, r0"], env2, labels2)
  | .divide left right, env, labels =>
    match Emit left env labels with
    | .error e => .error e
    | .ok (ll, env1, labels1) =>
      match Emit right env1 labels1 with
      | .error e => .error e
      | .ok (lr, env2, labels2) =>
        .ok (ll ++ ["  push \x7br0, ip\x7d"] ++ lr ++
          ["  pop \x7br1, ip\x7d", "  udiv r0, r1, r0"], env2, labels2)
  | .call callee args, env, labels =>
    match args with
    | [] => .ok (["  bl " ++ callee], env, labels)
    | [arg0] =>
      match Emit arg0 env labels with
      | .error e => .error e
      | .ok (la, env1, labels1) => .ok (la ++ ["  bl " ++ callee], env1, labels1)
    | arg0 :: arg1 :: rest =>
      if (arg0 :: arg1 :: rest).length ≤ 4 then
        match EmitArgs (arg0 :: arg1 :: rest) 0 env labels with
        | .error e => .error e
        | .ok (la, env1, labels1) =>
          .ok ("  sub sp, sp, #16" :: la ++
            ["  pop \x7br0, r1, r2, r3\x7d", "  bl " ++ callee], env1, labels1)
      else .error "More than 4 arguments are not supported"
  | .ret term, env, labels =>
    match Emit term env labels with
    | .error e => .error e
    | .ok (ls, env1, labels1) =>
      .ok (ls ++ ["  mov sp, fp", "  pop \x7bfp, pc\x7d"], env1, labels1)
  | .block statements, env, labels => EmitList statements env labels
  | .ifNode conditional consequence alternative, env, labels =>
    let ifFalseLabel := labels
    let endIfLabel := labels + 1
    match Emit conditional env (labels + 2) with
    | .error e => .error e
    | .ok (lc, env1, labels1) =>
      match Emit consequence env1 labels1 with
      | .error e => .error e
      | .ok (lcons, env2, labels2) =>
        match Emit alternative env2 labels2 with
        | .error e => .error e
        | .ok (lalt, env3, labels3) =>
          .ok (lc ++ ["  cmp r0, #0", "  beq " ++ labelStr ifFalseLabel] ++
            lcons ++ ["  b " ++ labelStr endIfLabel, labelStr ifFalseLabel ++ ":"] ++
            lalt ++ [labelStr endIfLabel ++ ":"], env3, labels3)
  | .whileNode conditional body, env, labels =>
    let loopStart := labels
    let loopEnd := labels + 1
    match Emit conditional env (labels + 2) with
    | .error e => .error e
    | .ok (lc, env1, labels1) =>
      match Emit body env1 labels1 with
      | .error e => .error e
      | .ok (lb, env2, labels2) =>
        .ok ([labelStr loopStart ++ ":"] ++ lc ++
          ["  cmp r0, #0", "  beq " ++ labelStr loopEnd] ++ lb ++
          ["  b " ++ labelStr loopStart, labelStr loopEnd ++ ":"], env2, labels2)
  | .assign name value, env, labels =>
    match Emit value env labels with
    | .error e => .error e
    | .ok (ls, env1, labels1) =>
      match List.lookup name env1.locals with
      | some offset => .ok (ls ++ [strFpLine offset], env1, labels1)
      | none => .error ("Undefined variable: " ++ name)
  | .varNode name value, env, labels =>
    match Emit value env labels with
    | .error e => .error e
    | .ok (ls, env1, labels1) =>
      .ok (ls ++ ["  push \x7br0, ip\x7d"],
        ⟨(name, env1.nextLocalOffset - 4) :: env1.locals, env1.nextLocalOffset - 8⟩,
        labels1)
  | .function name parameters body, env, labels =>
    if parameters.length > 4 then .error "More than 4 params is not supported"
    else
      match Emit body (setUpEnvironment parameters) labels with
      | .error e => .error e
      | .ok (lb, _, labels1) =>
        .ok (["", ".global " ++ name, name ++ ":"] ++ prologueLines ++ lb ++
          epilogueLines, env, labels1)
  | .main statements, env, labels =>
    match EmitList statements env labels with
    | .error e => .error e
    | .ok (ls, env1, labels1) =>
      .ok ([".global main", "main:", "  push \x7bfp, lr\x7d"] ++ ls ++
        ["  mov r0, #0", "  pop \x7bfp, pc\x7d"], env1, labels1)
  | .assert condition, env, labels =>
    match Emit condition env labels with
    | .error e => .error e
    | .ok (ls, env1, labels1) =>
      .ok (ls ++ ["  cmp r0, #1", "  moveq r0, #\x27.\x27",
        "  movne r0, #\x27F\x27", "  bl putchar"], env1, labels1)
termination_by x _ _ => sizeOf x

/-- The statement loops of `Block.Emit` and `Main.Emit`: emit each
statement in order against the shared environment. -/
def EmitList : List AST → Environment → Nat → Except String (List String × Environment × Nat)
  | [], env, labels => .ok ([], env, labels)
  | stmt :: stmts, env, labels =>
    match Emit stmt env labels with
    | .error e => .error e
    | .ok (ls, env1, labels1) =>
      match EmitList stmts env1 labels1 with
      | .error e => .error e
      | .ok (ls2, env2, labels2) => .ok (ls ++ ls2, env2, labels2)
termination_by l _ _ => sizeOf l

/-- The argument loop of `Call.Emit` for 2–4 arguments: evaluate each
argument in order and store it at `[sp, #4*i]`. -/
def EmitArgs : List AST → Nat → Environment → Nat → Except String (List String × Environment × Nat)
  | [], _, env, labels => .ok ([], env, labels)
  | arg :: args, i, env, labels =>
    match Emit arg env labels with
    | .error e => .error e
    | .ok (la, env1, labels1) =>
      match EmitArgs args (i + 1) env1 labels1 with
      | .error e => .error e
      | .ok (ls2, env2, labels2) => .ok (la ++ [strSpLine (4 * (i : Int))] ++ ls2, env2, labels2)
termination_by l _ _ _ => sizeOf l

end

/-- The driver sequence of Go `main`: parse the source to completion with
the top-level parser, then emit the resulting tree against a fresh
environment (and the process-global label counter starting at 0),
returning the emitted lines. -/
def compileProgram (src : List Char) : Except String (List String) :=
  match ParseStringToCompletion parserTop src with
  | .error e => .error e
  | .ok ast =>
    match Emit ast NewEnvironment 0 with
    | .error e => .error e
    | .ok (ls, _, _) => .ok ls

/-! ## Structural equality as implemented (`Equals`, ast.go)

A Go `AST` interface value carries a dynamic type: either a node value
(e.g. `Number`) or a pointer to a node (e.g. `*Number`).  The `Equals`
methods type-assert their argument against the *pointer* type
(`other.(*Number)` etc.), so the outcome depends on how the other operand
was wrapped.  `GoVal` models an interface value: each node carries a
`ptr` flag recording whether the interface holds a pointer.  The parser
(parser.go) wraps every node it builds as a plain value, i.e. with
`ptr = false`. -/

inductive GoVal where
  | number (ptr : Bool) (value : Int)
  | id (ptr : Bool) (value : String)
  | not (ptr : Bool) (term : GoVal)
  | equal (ptr : Bool) (left right : GoVal)
  | notEqual (ptr : Bool) (left right : GoVal)
  | add (ptr : Bool) (left right : GoVal)
  | subtract (ptr : Bool) (left right : GoVal)
  | multiply (ptr : Bool) (left right : GoVal)
  | divide (ptr : Bool) (left right : GoVal)
  | call (ptr : Bool) (callee : String) (args : List GoVal)
  | ret (ptr : Bool) (term : GoVal)
  | block (ptr : Bool) (statements : List GoVal)
  | ifNode (ptr : Bool) (conditional consequence alternative : GoVal)
  | whileNode (ptr : Bool) (conditional body : GoVal)
  | assign (ptr : Bool) (name : String) (value : GoVal)
  | varNode (ptr : Bool) (name : String) (value : GoVal)
  | function (ptr : Bool) (name : String) (parameters : List String) (body : GoVal)
  | main (ptr : Bool) (statements : List GoVal)
  | assert (ptr : Bool) (condition : GoVal)

mutual

/-- The Go `Equals` methods: each type-asserts `other` against the pointer
variant of its own node type (succeeding only when `other` is
pointer-wrapped and of the same variant) and then compares payloads
pointwise. -/
def Equals : GoVal → GoVal → Bool
  | .number _ v, other =>
    match other with
    | .number true v2 => v == v2
    | _ => false
  | .id _ x, other =>
    match other with
    | .id true y => x == y
    | _ => false
  | .not _ t, other =>
    match other with
    | .not true t2 => Equals t t2
    | _ => false
  | .equal _ l r, other =>
    match other with
    | .equal true l2 r2 => Equals l l2 && Equals r r2
    | _ => false
  | .notEqual _ l r, other =>
    match other with
    | .notEqual true l2 r2 => Equals l l2 && Equals r r2
    | _ => false
  | .add _ l r, other =>
    match other with
    | .add true l2 r2 => Equals l l2 && Equals r r2
    | _ => false
  | .subtract _ l r, other =>
    match other with
    | .subtract true l2 r2 => Equals l l2 && Equals r r2
    | _ => false
  | .multiply _ l r, other =>
    match other with
    | .multiply true l2 r2 => Equals l l2 && Equals r r2
    | _ => false
  | .divide _ l r, other =>
    match other with
    | .divide true l2 r2 => Equals l l2 && Equals r r2
    | _ => false
  | .call _ c args, other =>
    match other with
    | .call true c2 args2 =>
      c == c2 && args.length == args2.length && EqualsList args args2
    | _ => false
  | .ret _ t, other =>
    match other with
    | .ret true t2 => Equals t t2
    | _ => false
  | .block _ stmts, other =>
    match other with
    | .block true stmts2 => stmts.length == stmts2.length && EqualsList stmts stmts2
    | _ => false
  | .ifNode _ c t e, other =>
    match other with
    | .ifNode true c2 t2 e2 => Equals c c2 && Equals t t2 && Equals e e2
    | _ => false
  | .whileNode _ c b, other =>
    match other with
    | .whileNode true c2 b2 => Equals c c2 && Equals b b2
    | _ => false
  | .assign _ n v, other =>
    match other with
    | .assign true n2 v2 => n == n2 && Equals v v2
    | _ => false
  | .varNode _ n v, other =>
    match other with
    | .varNode true n2 v2 => n == n2 && Equals v v2
    | _ => false
  | .function _ n ps b, other =>
    match other with
    | .function true n2 ps2 b2 =>
      n == n2 && ps.length == ps2.length && ps == ps2 && Equals b b2
    | _ => false
  | .main _ stmts, other =>
    match other with
    | .main true stmts2 => stmts.length == stmts2.length && EqualsList stmts stmts2
    | _ => false
  | .assert _ c, other =>
    match other with
    | .assert true c2 => Equals c c2
    | _ => false
termination_by a _ => sizeOf a

/-- The pointwise child loops in `Call.Equals`, `Block.Equals` and
`Main.Equals` (both lists have equal length when this is reached). -/
def EqualsList : List GoVal → List GoVal → Bool
  | [], _ => true
  | a :: as_, bs =>
    match bs with
    | [] => false
    | b :: bs2 => Equals a b && EqualsList as_ bs2
termination_by a _ => sizeOf a

end

/-! ## A small ARM interpreter for the emitted code

Just enough 32-bit ARM semantics to give meaning to the instruction lines
produced for arithmetic expressions and assertions: registers `r0`/`r1`
as naturals below `2^32`, the stack (each `push {rX, ip}` / matching
`pop` pair transfers one value), the `eq` condition flag set by `cmp`,
and `putchar` output. -/

/-- The modulus `2^32` of 32-bit ARM arithmetic. -/
def W : Nat := 2 ^ 32

structure MState where
  r0 : Nat
  r1 : Nat
  stack : List Nat
  zf : Bool
  out : List Nat
deriving DecidableEq, Repr

/-- Decimal accumulator parse; fails on any non-digit. -/
def parseDecAux : List Char → Nat → Option Nat
  | [], acc => some acc
  | c :: cs, acc =>
    if 48 ≤ c.toNat && c.toNat ≤ 57 then parseDecAux cs (acc * 10 + (c.toNat - 48))
    else none

/-- Parse a non-empty decimal digit string. -/
def parseDec : List Char → Option Nat
  | [] => none
  | c :: cs => parseDecAux (c :: cs) 0

/-- Execute one emitted line.  Unknown lines halt the machine (`none`). -/
def step (s : MState) (line : String) : Option MState :=
  if ("  ldr r0, =".data).isPrefixOf line.data then
    match parseDec (line.data.drop 11) with
    | some n => some { s with r0 := n % W }
    | none => none
  else if line = "  push \x7br0, ip\x7d" then some { s with stack := s.r0 :: s.stack }
  else if line = "  pop \x7br1, ip\x7d" then
    match s.stack with
    | v :: rest => some { s with r1 := v, stack := rest }
    | [] => none
  else if line = "  add r0, r1, r0" then some { s with r0 := (s.r1 + s.r0) % W }
  else if line = "  sub r0, r1, r0" then some { s with r0 := (s.r1 + (W - s.r0 % W)) % W }
  else if line = "  mul r0, r1, r0" then some { s with r0 := (s.r1 * s.r0) % W }
  else if line = "  cmp r0, #1" then some { s with zf := s.r0 == 1 }
  else if line = "  moveq r0, #\x27.\x27" then
    some (if s.zf then { s with r0 := 46 } else s)
  else if line = "  movne r0, #\x27F\x27" then
    some (if s.zf then s else { s with r0 := 70 })
  else if line = "  bl putchar" then some { s with out := s.out ++ [s.r0] }
  else none

/-- Run the machine over a list of emitted lines. -/
def runAsm (lines : List String) (s : MState) : Option MState :=
  match lines with
  | [] => some s
  | line :: rest =>
    match step s line with
    | none => none
    | some s1 => runAsm rest s1

/-- The pure-arithmetic expression fragment: non-negative literals
combined with `Add`, `Subtract` and `Multiply` (the fragment whose emitted
code the interpreter above covers in full). -/
def isArith : AST → Bool
  | .number v => decide (0 ≤ v)
  | .add l r => isArith l && isArith r
  | .subtract l r => isArith l && isArith r
  | .multiply l r => isArith l && isArith r
  | _ => false

/-- The 32-bit value of an arithmetic expression: literals reduced mod
`2^32`, `add`/`multiply` mod `2^32`, and `subtract` as wraparound
left-minus-right (`a - b` mod `2^32`). -/
def evalA : AST → Nat
  | .number v => v.toNat % W
  | .add l r => (evalA l + evalA r) % W
  | .subtract l r => (evalA l + (W - evalA r % W)) % W
  | .multiply l r => (evalA l * evalA r) % W
  | _ => 0

/-! ## Properties used to state the claims -/

/-- Cursor monotonicity: every success returns a cursor over the same
string, at or after the original index and within bounds; stated for
cursors whose index is in bounds. -/
def Mono {T : Type} (p : Parser T) : Prop :=
  ∀ (src : Source) (v : T) (src1 : Source),
    src.index ≤ src.str.length → p src = some (v, src1) →
    src1.str = src.str ∧ src.index ≤ src1.index ∧ src1.index ≤ src.str.length

/-- A parser makes progress when every success strictly advances the
cursor index, stays on the same string, and stays in bounds. -/
def Advancing {T : Type} (p : Parser T) : Prop :=
  ∀ (src : Source) (v : T) (src1 : Source),
    src.index ≤ src.str.length → p src = some (v, src1) →
    src1.str = src.str ∧ src.index < src1.index ∧ src1.index ≤ src.str.length

/-- A parser whose successes never leave the string of the input cursor
(all parsers built from the combinator kernel satisfy this). -/
def StrPreserving {T : Type} (p : Parser T) : Prop :=
  ∀ (src : Source) (r : T × Source), p src = some r → r.2.str = src.str

/-- A parser that succeeds without consuming and returns a cursor over a
*different* (empty) string: a well-typed but adversarial `Parser[int]`.
Used to separate "the result cursor reached the end of its own string"
(what `ParseStringToCompletion` checks) from "the result cursor reached
the end of the input" (what the specification states). -/
def badParser : Parser Nat := fun _ => some (42, ⟨[], 0⟩)

/-! ## Cursor-monotonicity lemmas for the combinator kernel -/

theorem length_takeWhile_le (p : Char → Bool) :
    ∀ (l : List Char), (l.takeWhile p).length ≤ l.length := by
  intro l
  induction l with
  | nil => simp
  | cons a l ih =>
    simp only [List.takeWhile]
    split
    · simpa using ih
    · simp

theorem isPrefixOf_length_le {l1 l2 : List Char} :
    l1.isPrefixOf l2 = true → l1.length ≤ l2.length := by
  induction l1 generalizing l2 with
  | nil => intro _; simp
  | cons a l1 ih =>
    intro h
    cases l2 with
    | nil => simp [List.isPrefixOf] at h
    | cons b l2 =>
      simp only [List.isPrefixOf, Bool.and_eq_true] at h
      simpa using ih h.2

theorem isPrefixOf_append_self (l1 l2 : List Char) : l1.isPrefixOf (l1 ++ l2) = true := by
  induction l1 with
  | nil => simp [List.isPrefixOf]
  | cons a l1 ih => simp [List.isPrefixOf, ih]

theorem matchHere_length_le {pat : Pat} {rem m : List Char}
    (h : matchHere pat rem = some m) : m.length ≤ rem.length := by
  cases pat with
  | classPlus cs =>
    simp only [matchHere] at h
    split at h
    · exact absurd h (by simp)
    · exact (Option.some.inj h) ▸ length_takeWhile_le _ _
  | ident =>
    cases rem with
    | nil => simp [matchHere] at h
    | cons c rest =>
      simp only [matchHere] at h
      split at h
      · cases h
        simpa using Nat.succ_le_succ (length_takeWhile_le _ _)
      · exact absurd h (by simp)
  | lit l =>
    simp only [matchHere] at h
    split at h
    · next hpre => cases h; exact isPrefixOf_length_le hpre
    · exact absurd h (by simp)
  | keyword l =>
    simp only [matchHere] at h
    split at h
    · next hpre =>
      have hlen := isPrefixOf_length_le hpre
      split at h
      · cases h; exact hlen
      · split at h
        · exact absurd h (by simp)
        · cases h; exact hlen
    · exact absurd h (by simp)
  | lineComment =>
    simp only [matchHere] at h
    split at h
    · cases h
      simp
      exact length_takeWhile_le _ _
    · exact absurd h (by simp)
  | blockComment =>
    simp only [matchHere] at h
    split at h
    · split at h
      · cases h
        simp [List.length_take]
      · exact absurd h (by simp)
    · exact absurd h (by simp)

theorem mono_Regexp (pat : Pat) : Mono (Regexp pat) := by
  intro src v src1 hle h
  simp only [Regexp, Source.Match] at h
  split at h
  · exact absurd h (by simp)
  · next hidx =>
    split at h
    · exact absurd h (by simp)
    · next m hm =>
      cases h
      have hb := matchHere_length_le hm
      rw [List.length_drop] at hb
      refine ⟨rfl, ?_, ?_⟩ <;> dsimp only <;> omega

theorem mono_Constant {T : Type} (v : T) : Mono (Constant v) := by
  intro src w src1 hle h
  cases h
  exact ⟨rfl, Nat.le_refl _, hle⟩

theorem mono_FailP {T : Type} : Mono (FailP : Parser T) := by
  intro src w src1 _ h
  exact absurd h (by simp [FailP])

theorem mono_OrL {T : Type} {ps : List (Parser T)} (h : ∀ p ∈ ps, Mono p) :
    Mono (OrL ps) := by
  induction ps with
  | nil => intro src v src1 _ hp; simp [OrL] at hp
  | cons p ps ih =>
    intro src v src1 hle hp
    simp only [OrL] at hp
    cases hps : p src with
    | some r =>
      rw [hps] at hp
      cases hp
      exact h p (List.mem_cons_self _ _) src v src1 hle hps
    | none =>
      rw [hps] at hp
      exact ih (fun q hq => h q (List.mem_cons_of_mem _ hq)) src v src1 hle hp

theorem mono_Bind {T U : Type} {p : Parser T} {k : T → Parser U}
    (hp : Mono p) (hk : ∀ v, Mono (k v)) : Mono (Bind p k) := by
  intro src v src1 hle h
  simp only [Bind] at h
  cases hps : p src with
  | none => rw [hps] at h; exact absurd h (by simp)
  | some r =>
    obtain ⟨w, sm⟩ := r
    rw [hps] at h
    obtain ⟨a1, a2, a3⟩ := hp src w sm hle hps
    obtain ⟨b1, b2, b3⟩ := hk w sm v src1 (by rw [a1]; exact a3) h
    refine ⟨by rw [b1, a1], Nat.le_trans a2 b2, ?_⟩
    rw [a1] at b3
    exact b3

theorem mono_And {T U : Type} {p : Parser T} {q : Parser U}
    (hp : Mono p) (hq : Mono q) : Mono (And p q) :=
  mono_Bind hp (fun _ => hq)

theorem mono_Map {T U : Type} {p : Parser T} {f : T → U}
    (hp : Mono p) : Mono (Map p f) :=
  mono_Bind hp (fun v => mono_Constant (f v))

theorem mono_Maybe {T : Type} {p : Parser T} (hp : Mono p) : Mono (Maybe p) := by
  intro src v src1 hle h
  simp only [Maybe] at h
  cases hps : p src with
  | none =>
    rw [hps] at h
    cases h
    exact ⟨rfl, Nat.le_refl _, hle⟩
  | some r =>
    obtain ⟨w, sm⟩ := r
    rw [hps] at h
    cases h
    exact hp _ _ _ hle hps

theorem mono_ManyAux {T : Type} {p : Parser T} (hp : Mono p) :
    ∀ (fuel : Nat) (src : Source) (vs : List T) (src1 : Source),
      src.index ≤ src.str.length → ManyAux p fuel src = some (vs, src1) →
      src1.str = src.str ∧ src.index ≤ src1.index ∧ src1.index ≤ src.str.length := by
  intro fuel
  induction fuel with
  | zero => intro src vs src1 _ h; simp [ManyAux] at h
  | succ n ih =>
    intro src vs src1 hle h
    simp only [ManyAux] at h
    split at h
    · cases h
      exact ⟨rfl, Nat.le_refl _, hle⟩
    · rename_i w sm hps
      obtain ⟨a1, a2, a3⟩ := hp src w sm hle hps
      split at h
      · exact absurd h (by simp)
      · rename_i vs2 s2 hrec
        cases h
        obtain ⟨b1, b2, b3⟩ := ih sm _ _ (by rw [a1]; exact a3) hrec
        exact ⟨by rw [b1, a1], Nat.le_trans a2 b2, by rw [a1] at b3; exact b3⟩

theorem mono_Many {T : Type} {p : Parser T} (hp : Mono p) : Mono (Many p) := by
  intro src vs src1 hle h
  exact mono_ManyAux hp _ src vs src1 hle h

/-! ## Cursor monotonicity of the grammar -/

theorem mono_OrL2 {T : Type} {p q : Parser T} (hp : Mono p) (hq : Mono q) :
    Mono (OrL [p, q]) := by
  apply mono_OrL
  intro r hr
  simp only [List.mem_cons, List.not_mem_nil, or_false] at hr
  rcases hr with rfl | rfl
  · exact hp
  · exact hq

theorem mono_ignored : Mono ignored :=
  mono_Many (mono_OrL2 (mono_Regexp _) (mono_OrL2 (mono_Regexp _) (mono_Regexp _)))

theorem mono_token (pat : Pat) : Mono (token pat) :=
  mono_Bind (mono_Regexp pat) (fun _ => mono_And mono_ignored (mono_Constant _))

theorem mono_parametersRule : Mono parametersRule := by
  apply mono_OrL2
  · exact mono_Bind (mono_token _) (fun _ =>
      mono_Bind (mono_Many (mono_And (mono_token _) (mono_token _))) (fun _ =>
        mono_Constant _))
  · exact mono_Constant _

theorem mono_infixRule {op : Parser (AST → AST → AST)} {t : Parser AST}
    (hop : Mono op) (ht : Mono t) : Mono (infixRule op t) :=
  mono_Bind ht (fun _ =>
    mono_Bind (mono_Many (mono_Bind hop (fun _ =>
      mono_Bind ht (fun _ => mono_Constant _)))) (fun _ => mono_Constant _))

theorem mono_argsRule {e : Parser AST} (he : Mono e) : Mono (argsRule e) := by
  apply mono_OrL2
  · exact mono_Bind he (fun _ =>
      mono_Bind (mono_Many (mono_And (mono_token _) he)) (fun _ => mono_Constant _))
  · exact mono_Constant _

theorem mono_callRule {e : Parser AST} (he : Mono e) : Mono (callRule e) := by
  apply mono_Bind (mono_token _)
  intro callee
  apply mono_And (mono_token _)
  apply mono_Bind (mono_argsRule he)
  intro args
  dsimp only
  split
  · split
    · exact mono_And (mono_token _) (mono_Constant _)
    · exact mono_FailP
  · exact mono_And (mono_token _) (mono_Constant _)

theorem mono_atomRule {e : Parser AST} (he : Mono e) : Mono (atomRule e) := by
  apply mono_OrL
  intro r hr
  simp only [atomRule, List.mem_cons, List.not_mem_nil, or_false] at hr
  rcases hr with rfl | rfl | rfl | rfl
  · exact mono_callRule he
  · exact mono_Map (mono_token _)
  · exact mono_Map (mono_token _)
  · exact mono_Bind (mono_And (mono_token _) he) (fun _ =>
      mono_And (mono_token _) (mono_Constant _))

theorem mono_unaryRule {e : Parser AST} (he : Mono e) : Mono (unaryRule e) := by
  apply mono_Bind (mono_Maybe (mono_Map (mono_token _)))
  intro notV
  exact mono_Map (mono_atomRule he)

theorem mono_getComparisonParser {e : Parser AST} (he : Mono e) :
    Mono (getComparisonParser e) :=
  mono_infixRule (mono_OrL2 (mono_Map (mono_token _)) (mono_Map (mono_token _)))
    (mono_infixRule (mono_OrL2 (mono_Map (mono_token _)) (mono_Map (mono_token _)))
      (mono_infixRule (mono_OrL2 (mono_Map (mono_token _)) (mono_Map (mono_token _)))
        (mono_unaryRule he)))

theorem mono_expressionF : ∀ n, Mono (expressionF n) := by
  intro n
  induction n with
  | zero => intro src v src1 _ h; simp [expressionF] at h
  | succ n ih => exact mono_getComparisonParser ih

theorem mono_expression : Mono expression := by
  intro src v src1 hle h
  exact mono_expressionF _ src v src1 hle h

theorem mono_returnStatementRule : Mono returnStatementRule :=
  mono_Bind (mono_And (mono_token _) mono_expression) (fun _ =>
    mono_And (mono_token _) (mono_Constant _))

theorem mono_expressionStatementRule : Mono expressionStatementRule :=
  mono_Bind mono_expression (fun _ => mono_And (mono_token _) (mono_Constant _))

theorem mono_ifStatementRule {st : Parser AST} (hs : Mono st) :
    Mono (ifStatementRule st) :=
  mono_Bind (mono_And (mono_And (mono_token _) (mono_token _)) mono_expression) (fun _ =>
    mono_Bind (mono_And (mono_token _) hs) (fun _ =>
      mono_Bind (mono_And (mono_token _) hs) (fun _ => mono_Constant _)))

theorem mono_whileStatementRule {st : Parser AST} (hs : Mono st) :
    Mono (whileStatementRule st) :=
  mono_Bind (mono_And (mono_And (mono_token _) (mono_token _)) mono_expression) (fun _ =>
    mono_Bind (mono_And (mono_token _) hs) (fun _ => mono_Constant _))

theorem mono_varStatementRule : Mono varStatementRule :=
  mono_Bind (mono_And (mono_token _) (mono_token _)) (fun _ =>
    mono_Bind (mono_And (mono_Map (mono_token _)) mono_expression) (fun _ =>
      mono_And (mono_token _) (mono_Constant _)))

theorem mono_assignmentStatementRule : Mono assignmentStatementRule :=
  mono_Bind (mono_token _) (fun _ =>
    mono_Bind (mono_And (mono_Map (mono_token _)) mono_expression) (fun _ =>
      mono_And (mono_token _) (mono_Constant _)))

theorem mono_blockStatementRule {st : Parser AST} (hs : Mono st) :
    Mono (blockStatementRule st) :=
  mono_Bind (mono_And (mono_token _) (mono_Many hs)) (fun _ =>
    mono_And (mono_token _) (mono_Constant _))

theorem mono_functionStatementRule {st : Parser AST} (hs : Mono st) :
    Mono (functionStatementRule st) := by
  apply mono_Bind (mono_And (mono_token _) (mono_token _))
  intro name
  apply mono_Bind (mono_And (mono_token _) mono_parametersRule)
  intro params
  apply mono_Bind (mono_And (mono_token _) (mono_blockStatementRule hs))
  intro blk
  dsimp only
  split
  · split
    · exact mono_Constant _
    · exact mono_Constant _
  · exact mono_Constant _

theorem mono_getStatementParser {st : Parser AST} (hs : Mono st) :
    Mono (getStatementParser st) := by
  apply mono_OrL
  intro r hr
  simp only [getStatementParser, List.mem_cons, List.not_mem_nil, or_false] at hr
  rcases hr with rfl | rfl | rfl | rfl | rfl | rfl | rfl | rfl
  · exact mono_returnStatementRule
  · exact mono_functionStatementRule hs
  · exact mono_ifStatementRule hs
  · exact mono_whileStatementRule hs
  · exact mono_varStatementRule
  · exact mono_assignmentStatementRule
  · exact mono_blockStatementRule hs
  · exact mono_expressionStatementRule

theorem mono_statementF : ∀ n, Mono (statementF n) := by
  intro n
  induction n with
  | zero => intro src v src1 _ h; simp [statementF] at h
  | succ n ih => exact mono_getStatementParser ih

theorem mono_statement : Mono statement := by
  intro src v src1 hle h
  exact mono_statementF _ src v src1 hle h

theorem mono_parserTop : Mono parserTop :=
  mono_Map (mono_And mono_ignored (mono_Many mono_statement))

/-! ## Termination behaviour of `Many` -/

theorem manyAux_advancing {T : Type} {p : Parser T} (hp : Advancing p) :
    ∀ (fuel : Nat) (src : Source),
      src.index ≤ src.str.length → src.str.length + 1 - src.index ≤ fuel →
      ∃ vs src1, ManyAux p fuel src = some (vs, src1) ∧ p src1 = none ∧
        src1.str = src.str ∧ src.index ≤ src1.index ∧ src1.index ≤ src.str.length ∧
        (p src = none → vs = [] ∧ src1 = src) := by
  intro fuel
  induction fuel with
  | zero => intro src hle hfuel; omega
  | succ n ih =>
    intro src hle hfuel
    cases hps : p src with
    | none =>
      refine ⟨[], src, ?_, hps, rfl, Nat.le_refl _, hle, fun _ => ⟨rfl, rfl⟩⟩
      simp [ManyAux, hps]
    | some r =>
      obtain ⟨w, sm⟩ := r
      obtain ⟨a1, a2, a3⟩ := hp src w sm hle hps
      obtain ⟨vs, src1, b1, b2, b3, b4, b5, _⟩ :=
        ih sm (by rw [a1]; exact a3) (by rw [a1]; omega)
      refine ⟨w :: vs, src1, ?_, b2, by rw [b3, a1], by omega, ?_, ?_⟩
      · simp [ManyAux, hps, b1]
      · rw [a1] at b5; exact b5
      · intro hnone
        simp at hnone

/-- Running `ManyAux` on a parser that always succeeds without advancing (such as
`Constant v`) returns `none` for *every* fuel value: the Go `for` loop in
`Many` never exits, i.e. `Many(Constant(v))` diverges. -/
theorem manyAux_constant_none {T : Type} (v : T) :
    ∀ (fuel : Nat) (src : Source), ManyAux (Constant v) fuel src = none := by
  intro fuel
  induction fuel with
  | zero => intro src; simp [ManyAux]
  | succ n ih => intro src; simp [ManyAux, Constant, ih]

theorem whitespace_advancing : Advancing whitespace := by
  intro src v src1 hle h
  simp only [whitespace, Regexp, Source.Match] at h
  split at h
  · exact absurd h (by simp)
  · next hidx =>
    split at h
    · exact absurd h (by simp)
    · next m hm =>
      have hb := matchHere_length_le hm
      rw [List.length_drop] at hb
      have hpos : 0 < m.length := by
        simp only [matchHere] at hm
        split at hm
        · exact absurd hm (by simp)
        · next hne =>
          cases hm
          simpa [List.isEmpty_iff_length_eq_zero, Nat.pos_iff_ne_zero] using hne
      cases h
      refine ⟨rfl, ?_, ?_⟩ <;> dsimp only <;> omega

/-! ## Claims C3, C8 and C9 -/

/-- Claim C3, counterexample: the claim quantifies over *every* parser and
states that `ParseStringToCompletion` succeeds iff the parser's resulting
cursor index equals `|s|`.  The Go code, however, compares the resulting
cursor's index against the length of the result cursor's *own* string.
`badParser` on input `"a"` returns the cursor `([], 0)`: its index `0`
differs from `|s| = 1`, so by the claim the driver must fail fatally — yet
the code succeeds with `ok 42` because `0` equals the length of the result
cursor's own (empty) string. -/
theorem claim3_cex :
    ParseStringToCompletion badParser "a".data = Except.ok 42 ∧
    badParser ⟨"a".data, 0⟩ = some (42, ⟨[], 0⟩) ∧
    (⟨[], 0⟩ : Source).index ≠ ("a".data).length :=
  ⟨rfl, rfl, by decide⟩

/-- Claim C3 (amended): for every parser whose successes stay on the input
cursor's string — as all parsers built from the combinator kernel do —
`ParseStringToCompletion p s` succeeds with the parsed value iff `p` at
index 0 of `s` succeeds with a cursor at index `|s|`; when `p` returns no
result it fails with the fixed diagnostic, and when the cursor stops short
of the end it fails reporting the offending index and the remaining
tail. -/
theorem claim3_completion (T : Type) (p : Parser T) (s : List Char)
    (hp : StrPreserving p) :
    (p ⟨s, 0⟩ = none →
      ParseStringToCompletion p s = .error "Parse error: could not parse anything at all") ∧
    (∀ (v : T) (src1 : Source), p ⟨s, 0⟩ = some (v, src1) →
      (src1.index = s.length → ParseStringToCompletion p s = .ok v) ∧
      (src1.index ≠ s.length →
        ParseStringToCompletion p s = .error ("Parse error at index " ++ natStr src1.index ++
          ", remaining: " ++ String.mk (s.drop src1.index)))) := by
  constructor
  · intro h
    simp [ParseStringToCompletion, h]
  · intro v src1 h
    have hstr : src1.str = s := hp ⟨s, 0⟩ (v, src1) h
    constructor
    · intro hidx
      simp [ParseStringToCompletion, h, hstr, hidx]
    · intro hidx
      simp [ParseStringToCompletion, h, hstr, hidx]

/-- Witness for `claim3_completion` at a concrete parser and input. -/
theorem claim3_witness :
    ParseStringToCompletion (Constant (5 : Nat)) [] = Except.ok 5 :=
  ((claim3_completion Nat (Constant 5) [] (fun _ _ h => by cases h; rfl)).2
    5 ⟨[], 0⟩ rfl).1 rfl

/-- Claim C8, counterexample: `many(p)` does *not* always succeed.  For a
parser that succeeds without advancing, such as `Constant 42`, the Go
`Many` loop never exits; in the model the loop result is `none` for every
fuel value (`manyAux_constant_none`), in particular for the fuel `Many`
supplies. -/
theorem claim8_cex : Many (Constant (42 : Nat)) ⟨"a".data, 0⟩ = none :=
  manyAux_constant_none 42 _ _

/-- Claim C8 (amended): for every parser `p` that strictly advances the
cursor on success (true of every parser the grammar passes to `Many`) and
every in-bounds cursor, `many(p)` succeeds: it returns the collected
values together with the cursor after the last successful application of
`p`, which is exactly the first cursor on which `p` fails; when `p` fails
immediately it returns the empty list and the original cursor. -/
theorem claim8_many_progress (T : Type) (p : Parser T) (src : Source)
    (hle : src.index ≤ src.str.length) (hp : Advancing p) :
    ∃ vs src1, Many p src = some (vs, src1) ∧ p src1 = none ∧
      (p src = none → vs = [] ∧ src1 = src) := by
  obtain ⟨vs, src1, h1, h2, _, _, _, h6⟩ :=
    manyAux_advancing hp (src.str.length + 1 - src.index) src hle (Nat.le_refl _)
  exact ⟨vs, src1, h1, h2, h6⟩

/-- Witness for `claim8_many_progress`: `many(whitespace)` on `" x"`. -/
theorem claim8_witness :
    ∃ vs src1, Many whitespace ⟨" x".data, 0⟩ = some (vs, src1) ∧
      whitespace src1 = none ∧
      (whitespace ⟨" x".data, 0⟩ = none → vs = [] ∧ src1 = ⟨" x".data, 0⟩) :=
  claim8_many_progress _ whitespace ⟨" x".data, 0⟩ (by decide) whitespace_advancing

/-- Claim C9: cursor monotonicity.  Every parser built from the combinator
kernel (`Regexp`, `Constant`, `Or`, `Many`, `Maybe`, `Bind`, `And`, `Map`)
preserves the invariant that a success on an in-bounds cursor stays on the
same string with `original.index ≤ next.index ≤ |text|`, and the grammar's
`expression`, `statement` and top-level parsers satisfy the invariant
outright.  (A failure carries no cursor at all, by the shape of the
parse-result type.) -/
theorem claim9_cursor_mono :
    (∀ pat, Mono (Regexp pat)) ∧
    (∀ (T : Type) (v : T), Mono (Constant v)) ∧
    (∀ (T : Type) (ps : List (Parser T)), (∀ p ∈ ps, Mono p) → Mono (OrL ps)) ∧
    (∀ (T : Type) (p : Parser T), Mono p → Mono (Many p)) ∧
    (∀ (T : Type) (p : Parser T), Mono p → Mono (Maybe p)) ∧
    (∀ (T U : Type) (p : Parser T) (k : T → Parser U),
      Mono p → (∀ v, Mono (k v)) → Mono (Bind p k)) ∧
    (∀ (T U : Type) (p : Parser T) (q : Parser U), Mono p → Mono q → Mono (And p q)) ∧
    (∀ (T U : Type) (p : Parser T) (f : T → U), Mono p → Mono (Map p f)) ∧
    Mono expression ∧ Mono statement ∧ Mono parserTop :=
  ⟨mono_Regexp, fun _ => mono_Constant, fun _ _ => mono_OrL, fun _ _ => mono_Many,
   fun _ _ => mono_Maybe, fun _ _ _ _ => mono_Bind, fun _ _ _ _ => mono_And,
   fun _ _ _ _ hp => mono_Map hp, mono_expression, mono_statement, mono_parserTop⟩

/-- Witness for `claim9_cursor_mono` at concrete parsers. -/
theorem claim9_witness :
    Mono (And (Constant (0 : Nat)) (Constant (1 : Nat))) ∧ Mono parserTop :=
  ⟨claim9_cursor_mono.2.2.2.2.2.2.1 Nat Nat (Constant 0) (Constant 1)
      (claim9_cursor_mono.2.1 Nat 0) (claim9_cursor_mono.2.1 Nat 1),
   claim9_cursor_mono.2.2.2.2.2.2.2.2.2.2⟩

/-! ## Claim C1: operator precedence and left associativity -/

set_option maxHeartbeats 4000000 in
/-- Claim C1: the expression grammar parses its binary operators at three
left-associative precedence levels (comparison < sum < product):
`1 + 2 * 3` parses to `Add(Number 1, Multiply(Number 2, Number 3))`,
`1 * 2 + 3` to `Add(Multiply(1,2), 3)`, `1 - 2 - 3` to
`Subtract(Subtract(1,2), 3)` and `1 == 2 == 3` to `Equal(Equal(1,2), 3)`,
in each case consuming the whole input. -/
theorem claim1_precedence :
    ParseStringToCompletion expression "1 + 2 * 3".data =
      .ok (AST.add (AST.number 1) (AST.multiply (AST.number 2) (AST.number 3))) ∧
    ParseStringToCompletion expression "1 * 2 + 3".data =
      .ok (AST.add (AST.multiply (AST.number 1) (AST.number 2)) (AST.number 3)) ∧
    ParseStringToCompletion expression "1 - 2 - 3".data =
      .ok (AST.subtract (AST.subtract (AST.number 1) (AST.number 2)) (AST.number 3)) ∧
    ParseStringToCompletion expression "1 == 2 == 3".data =
      .ok (AST.equal (AST.equal (AST.number 1) (AST.number 2)) (AST.number 3)) :=
  ⟨rfl, rfl, rfl, rfl⟩

/-! ## Claim C4: structural equality as implemented -/

/-- Claim C4 evaluated at its failing input: the spec states that `Equals`
is pointwise structural equality, so a node must equal a structurally
identical copy of itself.  The code type-asserts against pointer node
types while the parser wraps nodes as plain values, so two identical
value-wrapped `Number(1)` nodes compare unequal; `Equals` answers `true`
only when the right operand is pointer-wrapped. -/
theorem claim4_equals_eval :
    Equals (GoVal.number false 1) (GoVal.number false 1) = false ∧
    Equals (GoVal.number true 1) (GoVal.number false 1) = false ∧
    Equals (GoVal.number false 1) (GoVal.number true 1) = true := by
  refine ⟨?_, ?_, ?_⟩ <;> simp [Equals]

/-! ## Claim C2: local-variable and parameter frame layout -/

theorem lookup_setUpLocals_not_mem {x : String} :
    ∀ (ps : List String) (i : Nat) (m : List (String × Int)), x ∉ ps →
      List.lookup x (setUpLocals i ps m) = List.lookup x m := by
  intro ps
  induction ps with
  | nil => intro i m _; rfl
  | cons p ps ih =>
    intro i m hx
    simp only [setUpLocals]
    rw [ih (i + 1) _ (fun hmem => hx (List.mem_cons_of_mem _ hmem))]
    have hne : (x == p) = false :=
      beq_eq_false_iff_ne.mpr (fun hxp => hx (hxp ▸ List.mem_cons_self _ _))
    simp [List.lookup, hne]

theorem lookup_setUpLocals_get :
    ∀ (ps : List String), ps.Nodup → ∀ (j : Nat), (hj : j < ps.length) → ∀ (i : Nat)
      (m : List (String × Int)),
      List.lookup ps[j] (setUpLocals i ps m) = some (4 * ((i + j : Nat) : Int) - 16) := by
  intro ps
  induction ps with
  | nil => intro _ j hj; exact absurd hj (by simp)
  | cons p ps ih =>
    intro hnd j hj i m
    simp only [setUpLocals]
    cases j with
    | zero =>
      have hp : p ∉ ps := (List.nodup_cons.mp hnd).1
      rw [List.getElem_cons_zero, lookup_setUpLocals_not_mem ps (i + 1) _ hp]
      simp [List.lookup]
    | succ j =>
      rw [List.getElem_cons_succ,
        ih (List.nodup_cons.mp hnd).2 j (by simpa using Nat.lt_of_succ_lt_succ hj) (i + 1) _]
      congr 1
      push_cast
      ring

/-- Claim C2: emitting `Var` appends the RHS code and `push {r0, ip}`,
records `name ↦ nextLocalOffset - 4` and decrements `nextLocalOffset` by
8; `setUpEnvironment` maps `params[i] ↦ 4*i - 16` (for distinct parameter
names) and starts `nextLocalOffset` at `-20`; hence inside any function
the first `Var`-declared local is recorded at offset `-24`. -/
theorem claim2_frame_layout
    (name : String) (value : AST) (env : Environment) (labels : Nat)
    (ls : List String) (env1 : Environment) (labels1 : Nat)
    (params : List String) (j : Nat)
    (hv : Emit value env labels = .ok (ls, env1, labels1))
    (hj : j < params.length) (hnd : params.Nodup) :
    Emit (AST.varNode name value) env labels =
      .ok (ls ++ ["  push \x7br0, ip\x7d"],
        ⟨(name, env1.nextLocalOffset - 4) :: env1.locals, env1.nextLocalOffset - 8⟩,
        labels1) ∧
    List.lookup params[j] (setUpEnvironment params).locals = some (4 * (j : Int) - 16) ∧
    (setUpEnvironment params).nextLocalOffset = -20 ∧
    (∀ (ls2 : List String) (labels2 : Nat),
      Emit value (setUpEnvironment params) labels = .ok (ls2, setUpEnvironment params, labels2) →
      ∃ envV, Emit (AST.varNode name value) (setUpEnvironment params) labels =
          .ok (ls2 ++ ["  push \x7br0, ip\x7d"], envV, labels2) ∧
        List.lookup name envV.locals = some (-24)) := by
  refine ⟨?_, ?_, rfl, ?_⟩
  · simp [Emit, hv]
  · have h := lookup_setUpLocals_get params hnd j hj 0 []
    simpa [setUpEnvironment, NewEnvironment] using h
  · intro ls2 labels2 hv2
    refine ⟨⟨(name, (setUpEnvironment params).nextLocalOffset - 4) ::
        (setUpEnvironment params).locals, (setUpEnvironment params).nextLocalOffset - 8⟩,
      by simp [Emit, hv2], ?_⟩
    simp [List.lookup, setUpEnvironment]

/-- Witness for `claim2_frame_layout` at concrete inputs. -/
theorem claim2_witness :
    Emit (AST.varNode "v" (AST.number 7)) NewEnvironment 0 =
      .ok ([ldrConstLine 7] ++ ["  push \x7br0, ip\x7d"],
        ⟨[("v", NewEnvironment.nextLocalOffset - 4)], NewEnvironment.nextLocalOffset - 8⟩,
        0) :=
  (claim2_frame_layout "v" (AST.number 7) NewEnvironment 0 [ldrConstLine 7] NewEnvironment 0
    ["a", "b"] 1 (by simp [Emit]) (by decide) (by decide)).1

/-! ## Claim C6: arity overflow is fatal during emission -/

set_option maxHeartbeats 4000000 in
/-- Claim C6: a `Call` with more than four arguments or a `Function` with
more than four parameters makes emission fail fatally with the
arity-overflow diagnostic; the source `function f(a,b,c,d,e){}` parses
successfully (so the failure is an emission failure, not a parse failure)
and compiling it produces exactly that diagnostic. -/
theorem claim6_arity_overflow :
    (∀ (callee : String) (args : List AST) (env : Environment) (labels : Nat),
      4 < args.length →
      Emit (AST.call callee args) env labels =
        .error "More than 4 arguments are not supported") ∧
    (∀ (name : String) (params : List String) (body : AST) (env : Environment) (labels : Nat),
      4 < params.length →
      Emit (AST.function name params body) env labels =
        .error "More than 4 params is not supported") ∧
    ParseStringToCompletion parserTop "function f(a,b,c,d,e)\x7b\x7d".data =
      .ok (AST.block [AST.function "f" ["a", "b", "c", "d", "e"] (AST.block [])]) ∧
    compileProgram "function f(a,b,c,d,e)\x7b\x7d".data =
      .error "More than 4 params is not supported" := by
  have hparse : ParseStringToCompletion parserTop "function f(a,b,c,d,e)\x7b\x7d".data =
      .ok (AST.block [AST.function "f" ["a", "b", "c", "d", "e"] (AST.block [])]) := rfl
  refine ⟨?_, ?_, hparse, ?_⟩
  · intro callee args env labels h
    match args, h with
    | a :: b :: rest, h =>
      have hlen : ¬ (a :: b :: rest).length ≤ 4 := by
        simp only [List.length_cons] at h ⊢
        omega
      simp only [Emit]
      rw [if_neg hlen]
  · intro name params body env labels h
    simp only [Emit]
    rw [if_pos h]
  · unfold compileProgram
    rw [hparse]
    simp [Emit, EmitList]

/-- Witness for the quantified parts of `claim6_arity_overflow`. -/
theorem claim6_witness :
    Emit (AST.call "g" [AST.number 1, AST.number 2, AST.number 3, AST.number 4, AST.number 5])
      NewEnvironment 0 = .error "More than 4 arguments are not supported" ∧
    Emit (AST.function "f" ["a", "b", "c", "d", "e"] (AST.block [])) NewEnvironment 0 =
      .error "More than 4 params is not supported" :=
  ⟨claim6_arity_overflow.1 "g" _ NewEnvironment 0 (by decide),
   claim6_arity_overflow.2.1 "f" _ (AST.block []) NewEnvironment 0 (by decide)⟩

/-! ## Claim C10: `__main` with parameters -/

set_option maxHeartbeats 8000000 in
theorem main_params_parse :
    ParseStringToCompletion parserTop "function __main(x) \x7b x; \x7d".data =
      .ok (AST.block [AST.main [AST.id "x"]]) := rfl

theorem main_params_compile :
    compileProgram "function __main(x) \x7b x; \x7d".data =
      .error "Undefined variable: x" := by
  unfold compileProgram
  rw [main_params_parse]
  simp [Emit, EmitList, List.lookup, NewEnvironment]

/-- Claim C10: a function declaration named `__main` with a non-empty
parameter list parses successfully to a `Main` node holding only the body
statements — the parameters are silently discarded, and no bindings are
ever created for them — so a read (`Id`) or an assignment (`Assign`) of
such a parameter name inside the body is emitted as an undefined-variable
fatal error, as compiling `function __main(x) { x; }` shows. -/
theorem claim10_main_params :
    ParseStringToCompletion parserTop "function __main(x) \x7b x; \x7d".data =
      .ok (AST.block [AST.main [AST.id "x"]]) ∧
    compileProgram "function __main(x) \x7b x; \x7d".data =
      .error "Undefined variable: x" ∧
    (∀ (name : String) (env : Environment) (labels : Nat),
      List.lookup name env.locals = none →
      Emit (AST.id name) env labels = .error ("Undefined variable: " ++ name)) ∧
    (∀ (name : String) (value : AST) (env : Environment) (labels : Nat)
      (ls : List String) (env1 : Environment) (labels1 : Nat),
      Emit value env labels = .ok (ls, env1, labels1) →
      List.lookup name env1.locals = none →
      Emit (AST.assign name value) env labels =
        .error ("Undefined variable: " ++ name)) := by
  refine ⟨main_params_parse, main_params_compile, ?_, ?_⟩
  · intro name env labels h
    simp [Emit, h]
  · intro name value env labels ls env1 labels1 hv h
    simp [Emit, hv, h]

/-- Witness for the quantified parts of `claim10_main_params`. -/
theorem claim10_witness :
    Emit (AST.id "x") NewEnvironment 0 = .error ("Undefined variable: " ++ "x") ∧
    Emit (AST.assign "y" (AST.number 1)) NewEnvironment 0 =
      .error ("Undefined variable: " ++ "y") :=
  ⟨claim10_main_params.2.2.1 "x" NewEnvironment 0 rfl,
   claim10_main_params.2.2.2 "y" (AST.number 1) NewEnvironment 0
     [ldrConstLine 1] NewEnvironment 0 (by simp [Emit]) rfl⟩

/-! ## Decimal roundtrip and interpreter step lemmas -/

theorem digitChar_toNat {d : Nat} (hd : d < 10) :
    (Nat.digitChar d).toNat = 48 + d ∧ 48 ≤ (Nat.digitChar d).toNat ∧
      (Nat.digitChar d).toNat ≤ 57 := by
  interval_cases d <;> refine ⟨?_, ?_, ?_⟩ <;> decide

theorem parseDecAux_append :
    ∀ (xs ys : List Char) (acc : Nat),
      parseDecAux (xs ++ ys) acc =
        match parseDecAux xs acc with
        | none => none
        | some a => parseDecAux ys a := by
  intro xs
  induction xs with
  | nil => intro ys acc; rfl
  | cons c cs ih =>
    intro ys acc
    simp only [List.cons_append, parseDecAux]
    split
    · exact ih ys _
    · rfl

theorem parseDecAux_decReprAux :
    ∀ (fuel n acc : Nat), n < fuel →
      parseDecAux (decReprAux fuel n) acc =
        some (acc * 10 ^ (decReprAux fuel n).length + n) := by
  intro fuel
  induction fuel with
  | zero => intro n acc h; omega
  | succ f ih =>
    intro n acc h
    by_cases h10 : n < 10
    · obtain ⟨hdv, hlo, hhi⟩ := digitChar_toNat h10
      simp only [decReprAux, if_pos h10, parseDecAux]
      rw [if_pos (by simp only [Bool.and_eq_true, decide_eq_true_eq]; omega)]
      simp [hdv]
    · have hdiv : n / 10 < f := by
        have h1 : n / 10 < n := Nat.div_lt_self (by omega) (by omega)
        omega
      obtain ⟨hdv, hlo, hhi⟩ := digitChar_toNat (Nat.mod_lt n (by omega))
      simp only [decReprAux, if_neg h10]
      rw [parseDecAux_append, ih (n / 10) acc hdiv]
      simp only [parseDecAux]
      rw [if_pos (by simp only [Bool.and_eq_true, decide_eq_true_eq]; omega)]
      simp only [parseDecAux, List.length_append, List.length_singleton, hdv]
      have hmod : 48 + n % 10 - 48 = n % 10 := by omega
      rw [hmod]
      have hpow : 10 ^ ((decReprAux f (n / 10)).length + 1) =
          10 ^ (decReprAux f (n / 10)).length * 10 := by ring
      have hnm : n / 10 * 10 + n % 10 = n := by omega
      congr 1
      calc (acc * 10 ^ (decReprAux f (n / 10)).length + n / 10) * 10 + n % 10
          = acc * (10 ^ (decReprAux f (n / 10)).length * 10) + (n / 10 * 10 + n % 10) := by
            ring
        _ = acc * 10 ^ ((decReprAux f (n / 10)).length + 1) + n := by rw [hpow, hnm]

theorem decReprAux_ne_nil (f n : Nat) : decReprAux (f + 1) n ≠ [] := by
  simp only [decReprAux]
  split
  · simp
  · simp

theorem parseDec_decRepr (n : Nat) : parseDec (decRepr n) = some n := by
  have h := parseDecAux_decReprAux (n + 1) n 0 (Nat.lt_succ_self n)
  have hne := decReprAux_ne_nil n n
  unfold decRepr parseDec
  split
  · next hnil => exact absurd hnil hne
  · next c cs hd =>
    rw [← hd, h]
    simp

/-- Step lemmas for each concrete instruction line. -/
theorem step_push (s : MState) :
    step s "  push \x7br0, ip\x7d" = some { s with stack := s.r0 :: s.stack } := rfl

theorem step_pop (r0 r1 : Nat) (v : Nat) (rest : List Nat) (zf : Bool) (out : List Nat) :
    step ⟨r0, r1, v :: rest, zf, out⟩ "  pop \x7br1, ip\x7d" =
      some ⟨r0, v, rest, zf, out⟩ := rfl

theorem step_add (s : MState) :
    step s "  add r0, r1, r0" = some { s with r0 := (s.r1 + s.r0) % W } := rfl

theorem step_sub (s : MState) :
    step s "  sub r0, r1, r0" = some { s with r0 := (s.r1 + (W - s.r0 % W)) % W } := rfl

theorem step_mul (s : MState) :
    step s "  mul r0, r1, r0" = some { s with r0 := (s.r1 * s.r0) % W } := rfl

theorem step_cmp1 (s : MState) :
    step s "  cmp r0, #1" = some { s with zf := s.r0 == 1 } := rfl

theorem step_moveq (s : MState) :
    step s "  moveq r0, #\x27.\x27" = some (if s.zf then { s with r0 := 46 } else s) := rfl

theorem step_movne (s : MState) :
    step s "  movne r0, #\x27F\x27" = some (if s.zf then s else { s with r0 := 70 }) := rfl

theorem step_bl (s : MState) :
    step s "  bl putchar" = some { s with out := s.out ++ [s.r0] } := rfl

theorem step_ldr (s : MState) (v : Int) (hv : 0 ≤ v) :
    step s (ldrConstLine v) = some { s with r0 := v.toNat % W } := by
  have hdata : (ldrConstLine v).data = "  ldr r0, =".data ++ decRepr v.toNat := by
    simp only [ldrConstLine, intStr, if_neg (by omega : ¬ v < 0), String.data_append]
    rfl
  unfold step
  rw [if_pos]
  · rw [hdata]
    have h11 : (11 : Nat) = ("  ldr r0, =".data).length := rfl
    rw [h11, List.drop_left, parseDec_decRepr]
  · rw [hdata]
    exact isPrefixOf_append_self _ _

theorem runAsm_append :
    ∀ (xs ys : List String) (s : MState),
      runAsm (xs ++ ys) s =
        match runAsm xs s with
        | none => none
        | some s1 => runAsm ys s1 := by
  intro xs
  induction xs with
  | nil => intro ys s; rfl
  | cons line rest ih =>
    intro ys s
    simp only [List.cons_append, runAsm]
    split
    · rfl
    · exact ih ys _

theorem evalA_lt (e : AST) : evalA e < W := by
  have hW : 0 < W := by norm_num [W]
  cases e <;> simp only [evalA] <;> first
    | exact Nat.mod_lt _ hW
    | exact hW

theorem sizeOf_AST_pos (e : AST) : 0 < sizeOf e := by
  cases e <;> simp_arith

/-- Emitting a pure-arithmetic expression leaves the environment and the
label counter untouched, and running the emitted lines on any machine
state computes the expression's 32-bit value into `r0`, preserving the
stack, the flag and the output. -/
theorem emit_arith_run :
    ∀ (e : AST), isArith e = true → ∀ (env : Environment) (labels : Nat),
      ∃ ls, Emit e env labels = .ok (ls, env, labels) ∧
        ∀ s : MState, ∃ st, runAsm ls s = some st ∧
          st.r0 = evalA e ∧ st.stack = s.stack ∧ st.zf = s.zf ∧ st.out = s.out := by
  suffices H : ∀ (n : Nat) (e : AST), sizeOf e ≤ n → isArith e = true →
      ∀ (env : Environment) (labels : Nat),
      ∃ ls, Emit e env labels = .ok (ls, env, labels) ∧
        ∀ s : MState, ∃ st, runAsm ls s = some st ∧
          st.r0 = evalA e ∧ st.stack = s.stack ∧ st.zf = s.zf ∧ st.out = s.out by
    intro e
    exact H (sizeOf e) e (Nat.le_refl _)
  intro n
  induction n with
  | zero =>
    intro e hsize
    have := sizeOf_AST_pos e
    omega
  | succ n ih =>
    intro e hsize he env labels
    cases e with
    | number v =>
      refine ⟨[ldrConstLine v], by simp [Emit], ?_⟩
      intro s
      have hv : 0 ≤ v := by simpa [isArith] using he
      refine ⟨{ s with r0 := v.toNat % W }, ?_, by simp [evalA], rfl, rfl, rfl⟩
      simp [runAsm, step_ldr s v hv]
    | add l r =>
      obtain ⟨hl, hr⟩ : isArith l = true ∧ isArith r = true := by simpa [isArith] using he
      have hpl := sizeOf_AST_pos l
      have hpr := sizeOf_AST_pos r
      simp only [AST.add.sizeOf_spec] at hsize
      obtain ⟨ll, hel, hrunl⟩ := ih l (by omega) hl env labels
      obtain ⟨lr, her, hrunr⟩ := ih r (by omega) hr env labels
      refine ⟨ll ++ ["  push \x7br0, ip\x7d"] ++ lr ++
        ["  pop \x7br1, ip\x7d", "  add r0, r1, r0"], by simp [Emit, hel, her], ?_⟩
      intro s
      obtain ⟨st1, hrun1, h1r0, h1st, h1zf, h1out⟩ := hrunl s
      obtain ⟨st2, hrun2, h2r0, h2st, h2zf, h2out⟩ :=
        hrunr { st1 with stack := st1.r0 :: st1.stack }
      obtain ⟨a0, a1, astk, azf, aout⟩ := st2
      simp only at h2r0 h2st h2zf h2out
      subst h2st
      refine ⟨⟨(st1.r0 + a0) % W, st1.r0, st1.stack, azf, aout⟩, ?_, ?_, ?_, ?_, ?_⟩
      · rw [runAsm_append, runAsm_append, runAsm_append, hrun1]
        simp only [runAsm, step_push]
        rw [hrun2]
        simp [runAsm, step_pop, step_add]
      · simp only [evalA]
        rw [h1r0, h2r0]
      · simp only
        rw [h1st]
      · simp only
        rw [h2zf, h1zf]
      · simp only
        rw [h2out, h1out]
    | subtract l r =>
      obtain ⟨hl, hr⟩ : isArith l = true ∧ isArith r = true := by simpa [isArith] using he
      have hpl := sizeOf_AST_pos l
      have hpr := sizeOf_AST_pos r
      simp only [AST.subtract.sizeOf_spec] at hsize
      obtain ⟨ll, hel, hrunl⟩ := ih l (by omega) hl env labels
      obtain ⟨lr, her, hrunr⟩ := ih r (by omega) hr env labels
      refine ⟨ll ++ ["  push \x7br0, ip\x7d"] ++ lr ++
        ["  pop \x7br1, ip\x7d", "  sub r0, r1, r0"], by simp [Emit, hel, her], ?_⟩
      intro s
      obtain ⟨st1, hrun1, h1r0, h1st, h1zf, h1out⟩ := hrunl s
      obtain ⟨st2, hrun2, h2r0, h2st, h2zf, h2out⟩ :=
        hrunr { st1 with stack := st1.r0 :: st1.stack }
      obtain ⟨a0, a1, astk, azf, aout⟩ := st2
      simp only at h2r0 h2st h2zf h2out
      subst h2st
      refine ⟨⟨(st1.r0 + (W - a0 % W)) % W, st1.r0, st1.stack, azf, aout⟩, ?_, ?_, ?_, ?_, ?_⟩
      · rw [runAsm_append, runAsm_append, runAsm_append, hrun1]
        simp only [runAsm, step_push]
        rw [hrun2]
        simp [runAsm, step_pop, step_sub]
      · simp only [evalA]
        rw [h1r0, h2r0]
      · simp only
        rw [h1st]
      · simp only
        rw [h2zf, h1zf]
      · simp only
        rw [h2out, h1out]
    | multiply l r =>
      obtain ⟨hl, hr⟩ : isArith l = true ∧ isArith r = true := by simpa [isArith] using he
      have hpl := sizeOf_AST_pos l
      have hpr := sizeOf_AST_pos r
      simp only [AST.multiply.sizeOf_spec] at hsize
      obtain ⟨ll, hel, hrunl⟩ := ih l (by omega) hl env labels
      obtain ⟨lr, her, hrunr⟩ := ih r (by omega) hr env labels
      refine ⟨ll ++ ["  push \x7br0, ip\x7d"] ++ lr ++
        ["  pop \x7br1, ip\x7d", "  mul r0, r1, r0"], by simp [Emit, hel, her], ?_⟩
      intro s
      obtain ⟨st1, hrun1, h1r0, h1st, h1zf, h1out⟩ := hrunl s
      obtain ⟨st2, hrun2, h2r0, h2st, h2zf, h2out⟩ :=
        hrunr { st1 with stack := st1.r0 :: st1.stack }
      obtain ⟨a0, a1, astk, azf, aout⟩ := st2
      simp only at h2r0 h2st h2zf h2out
      subst h2st
      refine ⟨⟨(st1.r0 * a0) % W, st1.r0, st1.stack, azf, aout⟩, ?_, ?_, ?_, ?_, ?_⟩
      · rw [runAsm_append, runAsm_append, runAsm_append, hrun1]
        simp only [runAsm, step_push]
        rw [hrun2]
        simp [runAsm, step_pop, step_mul]
      · simp only [evalA]
        rw [h1r0, h2r0]
      · simp only
        rw [h1st]
      · simp only
        rw [h2zf, h1zf]
      · simp only
        rw [h2out, h1out]
    | id x => simp [isArith] at he
    | not t => simp [isArith] at he
    | equal l r => simp [isArith] at he
    | notEqual l r => simp [isArith] at he
    | divide l r => simp [isArith] at he
    | call c args => simp [isArith] at he
    | ret t => simp [isArith] at he
    | block stmts => simp [isArith] at he
    | ifNode c t e => simp [isArith] at he
    | whileNode c b => simp [isArith] at he
    | assign nm v => simp [isArith] at he
    | varNode nm v => simp [isArith] at he
    | function nm ps b => simp [isArith] at he
    | main stmts => simp [isArith] at he
    | assert c => simp [isArith] at he

theorem evalA_subtract_int (a b : AST) :
    (evalA (AST.subtract a b) : Int) = ((evalA a : Int) - evalA b) % (W : Int) := by
  have ha := evalA_lt a
  have hb := evalA_lt b
  have hW : W = 4294967296 := rfl
  rw [hW] at ha hb
  simp only [evalA, hW]
  omega

/-- Claim C5: every arithmetic binary node emits its left operand's code,
`push {r0, ip}`, the right operand's code, `pop {r1, ip}`, and its
combining instruction (`add`/`sub`/`mul`/`udiv r0, r1, r0`); and for every
`Subtract(a, b)` over the arithmetic fragment the emitted code leaves
`(a - b) mod 2^32` — left minus right, not right minus left — in `r0`. -/
theorem claim5_binary_emission :
    (∀ (l r : AST) (env : Environment) (labels : Nat) (ll : List String)
        (env1 : Environment) (labels1 : Nat) (lr : List String)
        (env2 : Environment) (labels2 : Nat),
      Emit l env labels = .ok (ll, env1, labels1) →
      Emit r env1 labels1 = .ok (lr, env2, labels2) →
      Emit (AST.add l r) env labels =
        .ok (ll ++ ["  push \x7br0, ip\x7d"] ++ lr ++
          ["  pop \x7br1, ip\x7d", "  add r0, r1, r0"], env2, labels2) ∧
      Emit (AST.subtract l r) env labels =
        .ok (ll ++ ["  push \x7br0, ip\x7d"] ++ lr ++
          ["  pop \x7br1, ip\x7d", "  sub r0, r1, r0"], env2, labels2) ∧
      Emit (AST.multiply l r) env labels =
        .ok (ll ++ ["  push \x7br0, ip\x7d"] ++ lr ++
          ["  pop \x7br1, ip\x7d", "  mul r0, r1, r0"], env2, labels2) ∧
      Emit (AST.divide l r) env labels =
        .ok (ll ++ ["  push \x7br0, ip\x7d"] ++ lr ++
          ["  pop \x7br1, ip\x7d", "  udiv r0, r1, r0"], env2, labels2)) ∧
    (∀ (a b : AST), isArith a = true → isArith b = true →
      ∀ (env : Environment) (labels : Nat),
      ∃ ls, Emit (AST.subtract a b) env labels = .ok (ls, env, labels) ∧
        ∀ s : MState, ∃ st, runAsm ls s = some st ∧
          (st.r0 : Int) = ((evalA a : Int) - (evalA b : Int)) % (W : Int) ∧
          st.out = s.out) := by
  constructor
  · intro l r env labels ll env1 labels1 lr env2 labels2 h1 h2
    refine ⟨?_, ?_, ?_, ?_⟩ <;> simp [Emit, h1, h2]
  · intro a b ha hb env labels
    have hab : isArith (AST.subtract a b) = true := by simp [isArith, ha, hb]
    obtain ⟨ls, hel, hrun⟩ := emit_arith_run (AST.subtract a b) hab env labels
    refine ⟨ls, hel, ?_⟩
    intro s
    obtain ⟨st, hr, hr0, _, _, hout⟩ := hrun s
    exact ⟨st, hr, by rw [hr0, evalA_subtract_int], hout⟩

/-- Witness for `claim5_binary_emission` at `Subtract(10, 3)`. -/
theorem claim5_witness :
    (Emit (AST.subtract (AST.number 10) (AST.number 3)) NewEnvironment 0 =
      .ok ([ldrConstLine 10] ++ ["  push \x7br0, ip\x7d"] ++ [ldrConstLine 3] ++
        ["  pop \x7br1, ip\x7d", "  sub r0, r1, r0"], NewEnvironment, 0)) ∧
    (∃ ls, Emit (AST.subtract (AST.number 10) (AST.number 3)) NewEnvironment 0 =
        .ok (ls, NewEnvironment, 0) ∧
      ∀ s : MState, ∃ st, runAsm ls s = some st ∧
        (st.r0 : Int) = ((evalA (AST.number 10) : Int) - (evalA (AST.number 3) : Int)) %
          (W : Int) ∧
        st.out = s.out) :=
  ⟨((claim5_binary_emission.1 (AST.number 10) (AST.number 3) NewEnvironment 0
      [ldrConstLine 10] NewEnvironment 0 [ldrConstLine 3] NewEnvironment 0
      (by simp [Emit]) (by simp [Emit]))).2.1,
   claim5_binary_emission.2 (AST.number 10) (AST.number 3)
     (by simp [isArith]) (by simp [isArith]) NewEnvironment 0⟩

/-- Claim C7: emitting `Assert(cond)` produces the condition's code
followed by exactly `cmp r0, #1`, `moveq r0, #'.'`, `movne r0, #'F'`,
`bl putchar`; over the arithmetic fragment, running the emitted code
outputs `'.'` (46) exactly when the condition's value is 1 and `'F'` (70)
for every other value (such as 2). -/
theorem claim7_assert :
    (∀ (cond : AST) (env : Environment) (labels : Nat) (lc : List String)
        (env1 : Environment) (labels1 : Nat),
      Emit cond env labels = .ok (lc, env1, labels1) →
      Emit (AST.assert cond) env labels =
        .ok (lc ++ ["  cmp r0, #1", "  moveq r0, #\x27.\x27", "  movne r0, #\x27F\x27",
          "  bl putchar"], env1, labels1)) ∧
    (∀ (cond : AST), isArith cond = true → ∀ (env : Environment) (labels : Nat),
      ∃ ls, Emit (AST.assert cond) env labels = .ok (ls, env, labels) ∧
        ∀ s : MState, ∃ st, runAsm ls s = some st ∧
          st.out = s.out ++ [if evalA cond = 1 then 46 else 70]) := by
  constructor
  · intro cond env labels lc env1 labels1 h
    simp [Emit, h]
  · intro cond hc env labels
    obtain ⟨lc, hel, hrun⟩ := emit_arith_run cond hc env labels
    refine ⟨lc ++ ["  cmp r0, #1", "  moveq r0, #\x27.\x27", "  movne r0, #\x27F\x27",
      "  bl putchar"], by simp [Emit, hel], ?_⟩
    intro s
    obtain ⟨st1, hrun1, h1r0, h1st, h1zf, h1out⟩ := hrun s
    obtain ⟨a0, a1, astk, azf, aout⟩ := st1
    simp only at h1r0 h1st h1zf h1out
    by_cases hA : a0 = 1
    · refine ⟨⟨46, a1, astk, true, aout ++ [46]⟩, ?_, ?_⟩
      · rw [runAsm_append, hrun1]
        simp [runAsm, step_cmp1, step_moveq, step_movne, step_bl, hA]
      · simp only
        rw [h1out, if_pos (by rw [← h1r0]; exact hA)]
    · refine ⟨⟨70, a1, astk, false, aout ++ [70]⟩, ?_, ?_⟩
      · rw [runAsm_append, hrun1]
        simp [runAsm, step_cmp1, step_moveq, step_movne, step_bl,
          show (a0 == 1) = false from beq_eq_false_iff_ne.mpr hA]
      · simp only
        rw [h1out, if_neg (by rw [← h1r0]; exact hA)]

/-- Witness for `claim7_assert` at the condition `2`: the assertion
reports failure even though the value is non-zero. -/
theorem claim7_witness :
    ∃ ls, Emit (AST.assert (AST.number 2)) NewEnvironment 0 = .ok (ls, NewEnvironment, 0) ∧
      ∀ s : MState, ∃ st, runAsm ls s = some st ∧
        st.out = s.out ++ [if evalA (AST.number 2) = 1 then 46 else 70] :=
  claim7_assert.2 (AST.number 2) (by simp [isArith]) NewEnvironment 0

end Baseline
